import Mathlib

/-!
Shallow embedding of the `jrd` crate (src/src/lib.rs): the
`JsonResourceDescriptor` / `JsonResourceDescriptorLink` schema together with
its serde-derived JSON (de)serialization behaviour, the `BTreeMap<String,
String>` ordered map (`pub type Map`), and the `chrono::DateTime<chrono::Utc>`
timestamp (`pub type Time`) with its RFC 3339 encode/decode rules.
-/

/-- JSON value tree, the image of `serde_json::Value` needed by the crate.
Objects keep their fields in textual order (serde streams fields in input
order to the derived visitor). Numbers only occur in wrong-kind error cases
for this schema, so an integer payload suffices. -/
inductive Json where
  | null : Json
  | bool (b : Bool) : Json
  | num (n : Int) : Json
  | str (s : String) : Json
  | arr (xs : List Json) : Json
  | obj (kvs : List (String × Json)) : Json

/-- Keys of a JSON object, in emission order. -/
def Json.objKeys : Json → List String
  | Json.obj kvs => kvs.map Prod.fst
  | _ => []

/-- Fields of a JSON object. -/
def Json.objEntries : Json → List (String × Json)
  | Json.obj kvs => kvs
  | _ => []

/-- Strict lexicographic order on character lists by code point; this is the
order `Ord for String` induces in Rust (byte-wise UTF-8 order coincides with
code-point order). -/
def keyLtChars : List Char → List Char → Bool
  | [], [] => false
  | [], _ :: _ => true
  | _ :: _, [] => false
  | a :: as, b :: bs =>
    if a.toNat < b.toNat then true
    else if b.toNat < a.toNat then false
    else keyLtChars as bs

/-- Strict lexicographic order on strings, as `BTreeMap<String, _>` uses. -/
def keyLt (a b : String) : Bool := keyLtChars a.data b.data

theorem keyLtChars_antisymm_eq : ∀ (a b : List Char),
    keyLtChars a b = false → keyLtChars b a = false → a = b := by
  intro a
  induction a with
  | nil => intro b h1 h2; cases b with
    | nil => rfl
    | cons c cs => simp [keyLtChars] at h1
  | cons c cs ih =>
    intro b h1 h2
    cases b with
    | nil => simp [keyLtChars] at h2
    | cons d ds =>
      simp only [keyLtChars] at h1 h2
      by_cases hcd : c.toNat < d.toNat
      · simp [hcd] at h1
      · by_cases hdc : d.toNat < c.toNat
        · simp [hdc] at h2
        · have hn : c.toNat = d.toNat := by omega
          have hce : c = d := Char.ext (UInt32.ext hn)
          subst hce
          simp [hcd, hdc] at h1 h2
          rw [ih ds h1 h2]

theorem keyLt_antisymm_eq (a b : String) (h1 : keyLt a b = false)
    (h2 : keyLt b a = false) : a = b := by
  cases a with
  | mk da => cases b with
    | mk db =>
      have : da = db := keyLtChars_antisymm_eq da db h1 h2
      rw [this]

/-- Strictly-ascending-keys check for an association list. -/
def sortedEntries : List (String × String) → Bool
  | p :: q :: rest => keyLt p.1 q.1 && sortedEntries (q :: rest)
  | _ => true

theorem sortedEntries_cons (p : String × String) (l : List (String × String)) :
    sortedEntries (p :: l) = true ↔
      (∀ q, l.head? = some q → keyLt p.1 q.1 = true) ∧ sortedEntries l = true := by
  cases l with
  | nil => simp [sortedEntries]
  | cons q rest =>
    simp only [sortedEntries, Bool.and_eq_true, List.head?_cons]
    constructor
    · rintro ⟨h1, h2⟩
      exact ⟨fun r hr => by cases hr; exact h1, h2⟩
    · rintro ⟨h1, h2⟩
      exact ⟨h1 q rfl, h2⟩

/-- Model of `pub type Map = std::collections::BTreeMap<String, String>`:
an association list strictly sorted by key. -/
structure Map where
  entries : List (String × String)
  sorted : sortedEntries entries = true

/-- Model of `BTreeMap::new()` / `Map::default()`. -/
def Map.empty : Map := ⟨[], rfl⟩

/-- Model of `Map::is_empty`. -/
def Map.isEmpty (m : Map) : Bool := m.entries.isEmpty

/-- Sorted insertion of one key/value pair, replacing the value when the key
is already present (the behaviour of `BTreeMap::insert`). -/
def insertEntry (k v : String) : List (String × String) → List (String × String)
  | [] => [(k, v)]
  | (k', v') :: rest =>
    if keyLt k k' then (k, v) :: (k', v') :: rest
    else if keyLt k' k then (k', v') :: insertEntry k v rest
    else (k, v) :: rest

theorem insertEntry_head (k v : String) (l : List (String × String)) :
    (insertEntry k v l).head? = some (k, v) ∨ (insertEntry k v l).head? = l.head? := by
  cases l with
  | nil => left; rfl
  | cons p rest =>
    unfold insertEntry
    by_cases h1 : keyLt k p.1
    · left; simp [h1]
    · by_cases h2 : keyLt p.1 k
      · right; simp [h1, h2]
      · left; simp [h1, h2]

theorem insertEntry_sorted (k v : String) (l : List (String × String))
    (h : sortedEntries l = true) : sortedEntries (insertEntry k v l) = true := by
  induction l with
  | nil => rfl
  | cons p rest ih =>
    have hparts := (sortedEntries_cons p rest).mp h
    unfold insertEntry
    by_cases h1 : keyLt k p.1
    · simp only [h1, if_true]
      exact (sortedEntries_cons (k, v) (p :: rest)).mpr
        ⟨fun q hq => by cases hq; exact h1, h⟩
    · by_cases h2 : keyLt p.1 k
      · simp only [h1, if_false, h2, if_true]
        apply (sortedEntries_cons p (insertEntry k v rest)).mpr
        refine ⟨?_, ih hparts.2⟩
        intro q hq
        rcases insertEntry_head k v rest with hh | hh
        · rw [hh] at hq
          cases hq
          exact h2
        · rw [hh] at hq
          exact hparts.1 q hq
      · simp only [h1, if_false, h2]
        have hk : k = p.1 := keyLt_antisymm_eq k p.1 (by simpa using h1) (by simpa using h2)
        apply (sortedEntries_cons (k, v) rest).mpr
        refine ⟨?_, hparts.2⟩
        intro q hq
        rw [hk]
        exact hparts.1 q hq

/-- Model of `BTreeMap::insert` (last write wins on duplicate keys). -/
def Map.insert (m : Map) (k v : String) : Map :=
  ⟨insertEntry k v m.entries, insertEntry_sorted k v m.entries m.sorted⟩

/-- Build a map from pairs in input order, as serde's `MapAccess` loop over a
JSON object does: repeated `BTreeMap::insert`. -/
def Map.ofList (l : List (String × String)) : Map :=
  l.foldl (fun m p => m.insert p.1 p.2) Map.empty

/-- Model of `pub type Time = chrono::DateTime<chrono::Utc>`: a UTC civil
date-time with nanosecond precision, the observable content of chrono's
representation (its struct equality is field equality of the civil values). -/
structure Time where
  year : Int
  month : Nat
  day : Nat
  hour : Nat
  minute : Nat
  second : Nat
  nano : Nat

/-- Proleptic-Gregorian leap-year test (chrono's, via floored mod). -/
def isLeap (y : Int) : Bool :=
  (y % 4 == 0 && y % 100 != 0) || y % 400 == 0

/-- Length in days of month `m` (1-12). -/
def monthDays (leap : Bool) (m : Nat) : Nat :=
  match m with
  | 1 => 31
  | 2 => if leap then 29 else 28
  | 3 => 31
  | 4 => 30
  | 5 => 31
  | 6 => 30
  | 7 => 31
  | 8 => 31
  | 9 => 30
  | 10 => 31
  | 11 => 30
  | 12 => 31
  | _ => 0

/-- Days strictly before month `m` (1-12) in a year. -/
def monthStart (leap : Bool) (m : Nat) : Nat :=
  let L : Nat := if leap then 1 else 0
  match m with
  | 1 => 0
  | 2 => 31
  | 3 => 59 + L
  | 4 => 90 + L
  | 5 => 120 + L
  | 6 => 151 + L
  | 7 => 181 + L
  | 8 => 212 + L
  | 9 => 243 + L
  | 10 => 273 + L
  | 11 => 304 + L
  | 12 => 334 + L
  | _ => 400

/-- Validity of a civil time value: the invariant chrono's constructors keep
(`NaiveDate::from_ymd`, `NaiveTime::from_hms_nano`), below the leap-second
range. -/
def Time.Valid (t : Time) : Prop :=
  1 ≤ t.month ∧ t.month ≤ 12 ∧ 1 ≤ t.day ∧ t.day ≤ monthDays (isLeap t.year) t.month ∧
    t.hour < 24 ∧ t.minute < 60 ∧ t.second < 60 ∧ t.nano < 1000000000

instance (t : Time) : Decidable t.Valid :=
  inferInstanceAs (Decidable (_ ∧ _ ∧ _ ∧ _ ∧ _ ∧ _ ∧ _ ∧ _))

/-- Decimal digit as a character. -/
def digitChar : Nat → Char
  | 0 => '0'
  | 1 => '1'
  | 2 => '2'
  | 3 => '3'
  | 4 => '4'
  | 5 => '5'
  | 6 => '6'
  | 7 => '7'
  | 8 => '8'
  | 9 => '9'
  | _ => '*'

/-- Two-digit zero-padded decimal, as Rust's `{:02}` for values below 100. -/
def pad2Chars (n : Nat) : List Char :=
  [digitChar (n / 10), digitChar (n % 10)]

/-- Three-digit zero-padded decimal, as Rust's `{:03}` for values below 1000. -/
def pad3Chars (n : Nat) : List Char :=
  [digitChar (n / 100), digitChar (n / 10 % 10), digitChar (n % 10)]

/-- Four-digit zero-padded decimal, as Rust's `{:04}` for values below 10000. -/
def pad4Chars (n : Nat) : List Char :=
  [digitChar (n / 1000), digitChar (n / 100 % 10), digitChar (n / 10 % 10),
    digitChar (n % 10)]

/-- Six-digit zero-padded decimal, for chrono's `.%06d` fraction case. -/
def pad6Chars (n : Nat) : List Char :=
  pad3Chars (n / 1000) ++ pad3Chars (n % 1000)

/-- Nine-digit zero-padded decimal, for chrono's `.%09d` fraction case. -/
def pad9Chars (n : Nat) : List Char :=
  pad3Chars (n / 1000000) ++ pad3Chars (n / 1000 % 1000) ++ pad3Chars (n % 1000)

/-- Decimal digits of a natural number, most significant first. -/
def natDigits (n : Nat) : List Char :=
  if n < 10 then [digitChar n]
  else natDigits (n / 10) ++ [digitChar (n % 10)]

/-- Year formatting of chrono's `Debug for NaiveDate`: four zero-padded digits
for 0..=9999, otherwise an explicit sign followed by the absolute value padded
to at least four digits (Rust's `{:+05}`). -/
def yearChars (y : Int) : List Char :=
  if 0 ≤ y ∧ y ≤ 9999 then pad4Chars y.toNat
  else
    (if y < 0 then '-' else '+') ::
      (if y.natAbs ≤ 9999 then pad4Chars y.natAbs else natDigits y.natAbs)

/-- Fraction-of-second formatting of chrono's `Debug for NaiveTime`: nothing
when the nanosecond part is zero, else 3, 6, or 9 digits depending on the
trailing zeros. -/
def fracChars (nano : Nat) : List Char :=
  if nano = 0 then []
  else if nano % 1000000 = 0 then '.' :: pad3Chars (nano / 1000000)
  else if nano % 1000 = 0 then '.' :: pad6Chars (nano / 1000)
  else '.' :: pad9Chars nano

/-- Serialization of `Time` as serde emits it: chrono serializes a
`DateTime<Utc>` via `collect_str` of its `Debug` form, which is RFC 3339 with
a literal `Z` for `Utc` and `AutoSi` fraction handling. -/
def encodeTimeChars (t : Time) : List Char :=
  yearChars t.year ++ '-' :: pad2Chars t.month ++ '-' :: pad2Chars t.day ++
    'T' :: pad2Chars t.hour ++ ':' :: pad2Chars t.minute ++ ':' :: pad2Chars t.second ++
    fracChars t.nano ++ ['Z']

/-- String form of the serialized timestamp. -/
def encodeTime (t : Time) : String := String.mk (encodeTimeChars t)

/-- Model of `pub struct JsonResourceDescriptorLink` (src/src/lib.rs lines
170-227): one entry of the `links` array. `link_type` is serialized under the
name `type` (`#[serde(rename = "type")]`). -/
structure JsonResourceDescriptorLink where
  rel : String
  link_type : Option String
  href : Option String
  titles : Map
  properties : Map

/-- Model of `pub struct JsonResourceDescriptor` (src/src/lib.rs lines
119-158): the top-level JRD document. -/
structure JsonResourceDescriptor where
  subject : String
  aliases : List String
  properties : Map
  expires : Option Time
  links : List JsonResourceDescriptorLink

/-- A sorted map as a JSON object (`BTreeMap` serializes its entries in
ascending key order). -/
def encodeMap (m : Map) : Json :=
  Json.obj (m.entries.map (fun p => (p.1, Json.str p.2)))

/-- Derived `Serialize` for `JsonResourceDescriptorLink`: fields in
declaration order `rel`, `type`, `href`, `titles`, `properties`, with
`Option::is_none` fields and `Map::is_empty` maps skipped. -/
def encodeLink (l : JsonResourceDescriptorLink) : Json :=
  Json.obj (
    [("rel", Json.str l.rel)]
    ++ (match l.link_type with
        | none => []
        | some t => [("type", Json.str t)])
    ++ (match l.href with
        | none => []
        | some h => [("href", Json.str h)])
    ++ (if l.titles.isEmpty then [] else [("titles", encodeMap l.titles)])
    ++ (if l.properties.isEmpty then [] else [("properties", encodeMap l.properties)]))

/-- Derived `Serialize` for `JsonResourceDescriptor`: fields in declaration
order `subject`, `aliases`, `properties`, `expires`, `links`, with
`Vec::is_empty` / `Map::is_empty` collections and `Option::is_none` scalars
skipped per the `skip_serializing_if` attributes. -/
def encodeJrd (v : JsonResourceDescriptor) : Json :=
  Json.obj (
    [("subject", Json.str v.subject)]
    ++ (if v.aliases.isEmpty then []
        else [("aliases", Json.arr (v.aliases.map Json.str))])
    ++ (if v.properties.isEmpty then [] else [("properties", encodeMap v.properties)])
    ++ (match v.expires with
        | none => []
        | some t => [("expires", Json.str (encodeTime t))])
    ++ (if v.links.isEmpty then []
        else [("links", Json.arr (v.links.map encodeLink))]))

/-- JSON string escaping as `serde_json` performs it: quote, backslash, the
short control escapes, and `\u00XX` for the remaining control characters;
all other characters (including non-ASCII) are passed through. -/
def escapeChar (c : Char) : List Char :=
  if c = '"' then ['\\', '"']
  else if c = '\\' then ['\\', '\\']
  else if c = '\x08' then ['\\', 'b']
  else if c = '\x0c' then ['\\', 'f']
  else if c = '\n' then ['\\', 'n']
  else if c = '\r' then ['\\', 'r']
  else if c = '\t' then ['\\', 't']
  else if c.toNat < 32 then
    ['\\', 'u', '0', '0', digitChar (c.toNat / 16), hexChar (c.toNat % 16)]
  else [c]
where
  hexChar (n : Nat) : Char :=
    if n < 10 then digitChar n
    else if n = 10 then 'a'
    else if n = 11 then 'b'
    else if n = 12 then 'c'
    else if n = 13 then 'd'
    else if n = 14 then 'e'
    else 'f'

/-- A JSON string literal, quotes included. -/
def encodeStringChars (s : String) : List Char :=
  '"' :: (s.data.flatMap escapeChar) ++ ['"']

/-- Indentation of `serde_json::to_string_pretty`: two spaces per level. -/
def indentChars (depth : Nat) : List Char :=
  List.replicate (2 * depth) ' '

mutual

/-- Character stream of `serde_json::to_string_pretty` for one value at a
given depth. Empty arrays and objects print compactly; non-empty ones put
every element on its own line. -/
def prettyChars (depth : Nat) : Json → List Char
  | Json.null => ['n', 'u', 'l', 'l']
  | Json.bool true => ['t', 'r', 'u', 'e']
  | Json.bool false => ['f', 'a', 'l', 's', 'e']
  | Json.num n => (toString n).data
  | Json.str s => encodeStringChars s
  | Json.arr [] => ['[', ']']
  | Json.arr (x :: xs) =>
    '[' :: '\n' :: indentChars (depth + 1) ++ prettyChars (depth + 1) x ++
      prettyArrRest (depth + 1) xs ++ '\n' :: indentChars depth ++ [']']
  | Json.obj [] => ['\x7b', '\x7d']
  | Json.obj (kv :: kvs) =>
    '\x7b' :: '\n' :: indentChars (depth + 1) ++ encodeStringChars kv.1 ++
      ':' :: ' ' :: prettyChars (depth + 1) kv.2 ++
      prettyObjRest (depth + 1) kvs ++ '\n' :: indentChars depth ++ ['\x7d']

/-- Remaining array elements, each preceded by a comma and a new line. -/
def prettyArrRest (depth : Nat) : List Json → List Char
  | [] => []
  | x :: xs =>
    ',' :: '\n' :: indentChars depth ++ prettyChars depth x ++ prettyArrRest depth xs

/-- Remaining object members, each preceded by a comma and a new line. -/
def prettyObjRest (depth : Nat) : List (String × Json) → List Char
  | [] => []
  | kv :: kvs =>
    ',' :: '\n' :: indentChars depth ++ encodeStringChars kv.1 ++
      ':' :: ' ' :: prettyChars depth kv.2 ++ prettyObjRest depth kvs

end

/-- Model of `serde_json::to_string_pretty`. -/
def toStringPretty (j : Json) : String := String.mk (prettyChars 0 j)

/-- Model of `serde_json::to_string_pretty::<JsonResourceDescriptor>`, the
crate's documented serialization surface. -/
def jrdToStringPretty (v : JsonResourceDescriptor) : String :=
  toStringPretty (encodeJrd v)

/-- Is `c` an ASCII decimal digit. -/
def isDigitChar (c : Char) : Bool := 48 ≤ c.toNat && c.toNat ≤ 57

/-- Numeric value of a digit character. -/
def digitVal (c : Char) : Nat := c.toNat - 48

/-- Greedy digit reader: consumes up to `max` further digits, accumulating the
value and the count of digits read. -/
def readNumAux : Nat → Nat → Nat → List Char → Nat × Nat × List Char
  | 0, acc, cnt, cs => (acc, cnt, cs)
  | _ + 1, acc, cnt, [] => (acc, cnt, [])
  | m + 1, acc, cnt, c :: cs =>
    if isDigitChar c then readNumAux m (acc * 10 + digitVal c) (cnt + 1) cs
    else (acc, cnt, c :: cs)

/-- Read between one and `max` digits, as chrono's numeric field scanner. -/
def readNum (max : Nat) : List Char → Option (Nat × Nat × List Char)
  | c :: cs =>
    if isDigitChar c then some (readNumAux (max - 1) (digitVal c) 1 cs)
    else none
  | [] => none

/-- Expect one literal character. -/
def expectChar (c : Char) : List Char → Option (List Char)
  | d :: cs => if d = c then some cs else none
  | [] => none

/-- Optional fractional-second field, chrono's `Fixed::Nanosecond`: a dot
followed by up to nine digits, scaled to nanoseconds. No dot means zero. -/
def readFrac : List Char → Option (Nat × List Char)
  | '.' :: cs =>
    match readNum 9 cs with
    | some (v, cnt, rest) => some (v * 10 ^ (9 - cnt), rest)
    | none => none
  | cs => some (0, cs)

/-- UTC-offset field, chrono's `Fixed::TimezoneOffsetZ`: `Z`/`z` or a signed
`HH:MM` (colon optional) converted to seconds. -/
def readOffset : List Char → Option (Int × List Char)
  | 'Z' :: cs => some (0, cs)
  | 'z' :: cs => some (0, cs)
  | '+' :: cs => (readOffsetHm cs).map (fun p => ((p.1 : Int), p.2))
  | '-' :: cs => (readOffsetHm cs).map (fun p => (-(p.1 : Int), p.2))
  | _ => none
where
  readOffsetHm (cs : List Char) : Option (Nat × List Char) :=
    match readNum 2 cs with
    | some (h, _, rest) =>
      let rest := match rest with
        | ':' :: rest' => rest'
        | _ => rest
      match readNum 2 rest with
      | some (m, _, rest') => some (h * 3600 + m * 60, rest')
      | none => none
    | none => none

/-- RFC 3339 date-time reader modelling what `str::parse::<DateTime<
FixedOffset>>` accepts for the inputs this crate meets: civil fields, an
optional fraction, and a mandatory zone, with chrono's range checks from
`Parsed::to_datetime`. Returns the civil fields as written plus the offset in
seconds. -/
def parseRfc3339Chars (cs : List Char) : Option (Time × Int) :=
  match readNum 4 cs with
  | none => none
  | some (y, _, cs) =>
    match expectChar '-' cs with
    | none => none
    | some cs =>
      match readNum 2 cs with
      | none => none
      | some (mo, _, cs) =>
        match expectChar '-' cs with
        | none => none
        | some cs =>
          match readNum 2 cs with
          | none => none
          | some (d, _, cs) =>
            match expectChar 'T' cs with
            | none => none
            | some cs =>
              match readNum 2 cs with
              | none => none
              | some (h, _, cs) =>
                match expectChar ':' cs with
                | none => none
                | some cs =>
                  match readNum 2 cs with
                  | none => none
                  | some (mi, _, cs) =>
                    match expectChar ':' cs with
                    | none => none
                    | some cs =>
                      match readNum 2 cs with
                      | none => none
                      | some (s, _, cs) =>
                        match readFrac cs with
                        | none => none
                        | some (nano, cs) =>
                          match readOffset cs with
                          | none => none
                          | some (off, cs) =>
                            match cs with
                            | _ :: _ => none
                            | [] =>
                              let t : Time := ⟨(y : Int), mo, d, h, mi, s, nano⟩
                              if t.Valid ∧ off.natAbs < 86400 then some (t, off)
                              else none

/-- Day-of-year ordinal (1-based) of a civil date, as chrono's
`NaiveDate::ordinal`. -/
def ordinalOfDate (leap : Bool) (m d : Nat) : Nat := monthStart leap m + d

/-- Civil month/day from a day-of-year ordinal, as chrono's
`NaiveDate::from_yo` field reads. -/
def dateOfOrdinal (leap : Bool) (o : Nat) : Nat × Nat :=
  let L : Nat := if leap then 1 else 0
  if o ≤ 31 then (1, o)
  else if o ≤ 59 + L then (2, o - 31)
  else if o ≤ 90 + L then (3, o - (59 + L))
  else if o ≤ 120 + L then (4, o - (90 + L))
  else if o ≤ 151 + L then (5, o - (120 + L))
  else if o ≤ 181 + L then (6, o - (151 + L))
  else if o ≤ 212 + L then (7, o - (181 + L))
  else if o ≤ 243 + L then (8, o - (212 + L))
  else if o ≤ 273 + L then (9, o - (243 + L))
  else if o ≤ 304 + L then (10, o - (273 + L))
  else if o ≤ 334 + L then (11, o - (304 + L))
  else (12, o - (334 + L))

/-- Days in a year. -/
def yearLength (y : Int) : Nat := if isLeap y then 366 else 365

/-- Days from 1970-01-01 to the given civil date (Gregorian, the function
chrono's cycle tables compute). -/
def daysFromCivil (y : Int) (m d : Nat) : Int :=
  let y' : Int := if m ≤ 2 then y - 1 else y
  let era : Int := y' / 400
  let yoe : Int := y' - era * 400
  let mp : Int := (((m : Int) + 9) % 12)
  let doy : Int := (153 * mp + 2) / 5 + (d : Int) - 1
  let doe : Int := yoe * 365 + yoe / 4 - yoe / 100 + doy
  era * 146097 + doe - 719468

/-- Civil date from days since 1970-01-01 (inverse of `daysFromCivil`). -/
def civilFromDays (z0 : Int) : Int × Nat × Nat :=
  let z : Int := z0 + 719468
  let era : Int := z / 146097
  let doe : Int := z - era * 146097
  let yoe : Int := (doe - doe / 1460 + doe / 36524 - doe / 146096) / 365
  let y : Int := yoe + era * 400
  let doy : Int := doe - (365 * yoe + yoe / 4 - yoe / 100)
  let mp : Int := (5 * doy + 2) / 153
  let d : Nat := (doy - (153 * mp + 2) / 5 + 1).toNat
  let m : Nat := (if mp < 10 then mp + 3 else mp - 9).toNat
  (if m ≤ 2 then y + 1 else y, m, d)

/-- Shift a civil date by a number of days, following chrono's
`NaiveDate::add_days`: stay within the year when possible, otherwise go
through the linear day count. -/
def civilAddDays (y : Int) (m d : Nat) (delta : Int) : Int × Nat × Nat :=
  let o : Int := (ordinalOfDate (isLeap y) m d : Int)
  let c : Int := o + delta
  if 0 < c ∧ c ≤ (yearLength y : Int) then
    let md := dateOfOrdinal (isLeap y) c.toNat
    (y, md.1, md.2)
  else
    civilFromDays (daysFromCivil y m d + delta)

/-- Convert parsed civil fields plus a UTC offset to the UTC instant, as
`Parsed::to_datetime` does: subtract the offset from the local civil time,
carrying whole days into the date. -/
def applyOffset (t : Time) (off : Int) : Time :=
  let tot : Int := (t.hour : Int) * 3600 + (t.minute : Int) * 60 + (t.second : Int) - off
  let dayDelta : Int := tot / 86400 - (if tot % 86400 < 0 then 1 else 0)
  let rem : Nat := (tot - 86400 * dayDelta).toNat
  let ymd := civilAddDays t.year t.month t.day dayDelta
  ⟨ymd.1, ymd.2.1, ymd.2.2, rem / 3600, rem % 3600 / 60, rem % 60, t.nano⟩

/-- Deserialization of `Time`, as chrono's serde `DateTimeVisitor` performs
it: parse the string as an RFC 3339 instant with any offset, then convert to
UTC (`with_timezone(&Utc)`). -/
def decodeTimeStr (s : String) : Except String Time :=
  match parseRfc3339Chars s.data with
  | some (t, off) => Except.ok (applyOffset t off)
  | none => Except.error "invalid RFC3339 timestamp"

/-- Deserialize a JSON value as a Rust `String`. -/
def decodeString : Json → Except String String
  | Json.str s => Except.ok s
  | _ => Except.error "invalid type: expected a string"

/-- Deserialize a JSON value as a `Vec<String>`. -/
def decodeStringList : Json → Except String (List String)
  | Json.arr xs => go xs
  | _ => Except.error "invalid type: expected a sequence"
where
  go : List Json → Except String (List String)
    | [] => Except.ok []
    | x :: xs =>
      match decodeString x with
      | Except.error e => Except.error e
      | Except.ok s =>
        match go xs with
        | Except.error e => Except.error e
        | Except.ok ss => Except.ok (s :: ss)

/-- Fold the entries of a JSON object into a `Map`, last write winning, every
value required to be a string (`BTreeMap<String, String>` deserialization). -/
def decodeMapEntries : Map → List (String × Json) → Except String Map
  | acc, [] => Except.ok acc
  | acc, (k, Json.str v) :: rest => decodeMapEntries (acc.insert k v) rest
  | _, (_, _) :: _ => Except.error "invalid type: expected a string"

/-- Deserialize a JSON value as a `Map`. -/
def decodeMap : Json → Except String Map
  | Json.obj kvs => decodeMapEntries Map.empty kvs
  | _ => Except.error "invalid type: expected a map"

/-- Deserialize a JSON value as a `Time` (chrono requires a string). -/
def decodeTime : Json → Except String Time
  | Json.str s => decodeTimeStr s
  | _ => Except.error "invalid type: expected a string"

/-- Deserialize a JSON value as an `Option<T>`: `null` is `None`, anything
else goes to the inner deserializer. -/
def decodeOption (f : Json → Except String α) : Json → Except String (Option α)
  | Json.null => Except.ok none
  | j =>
    match f j with
    | Except.ok a => Except.ok (some a)
    | Except.error e => Except.error e

/-- Field slots of the derived `Deserialize` visitor for
`JsonResourceDescriptorLink`. -/
structure LinkState where
  rel : Option String
  link_type : Option (Option String)
  href : Option (Option String)
  titles : Option Map
  properties : Option Map

/-- Initial (all-unset) link visitor state. -/
def LinkState.init : LinkState := ⟨none, none, none, none, none⟩

/-- One field of a link object, as the derived visitor handles it: known
fields fill their slot (erroring on a duplicate or on a wrong-kind value),
unknown fields are ignored. -/
def linkStep (st : LinkState) (k : String) (v : Json) : Except String LinkState :=
  if k = "rel" then
    match st.rel with
    | some _ => Except.error "duplicate field rel"
    | none =>
      match decodeString v with
      | Except.error e => Except.error e
      | Except.ok s => Except.ok { st with rel := some s }
  else if k = "type" then
    match st.link_type with
    | some _ => Except.error "duplicate field type"
    | none =>
      match decodeOption decodeString v with
      | Except.error e => Except.error e
      | Except.ok s => Except.ok { st with link_type := some s }
  else if k = "href" then
    match st.href with
    | some _ => Except.error "duplicate field href"
    | none =>
      match decodeOption decodeString v with
      | Except.error e => Except.error e
      | Except.ok s => Except.ok { st with href := some s }
  else if k = "titles" then
    match st.titles with
    | some _ => Except.error "duplicate field titles"
    | none =>
      match decodeMap v with
      | Except.error e => Except.error e
      | Except.ok m => Except.ok { st with titles := some m }
  else if k = "properties" then
    match st.properties with
    | some _ => Except.error "duplicate field properties"
    | none =>
      match decodeMap v with
      | Except.error e => Except.error e
      | Except.ok m => Except.ok { st with properties := some m }
  else Except.ok st

/-- Run the link visitor over all fields. -/
def linkFold : LinkState → List (String × Json) → Except String LinkState
  | st, [] => Except.ok st
  | st, (k, v) :: rest =>
    match linkStep st k v with
    | Except.error e => Except.error e
    | Except.ok st' => linkFold st' rest

/-- Finish the link visitor: `rel` is required (no `#[serde(default)]` and a
non-`Option` type), `type` and `href` fall back to `None`, `titles` and
`properties` have `#[serde(default)]`. -/
def linkFinish (st : LinkState) : Except String JsonResourceDescriptorLink :=
  match st.rel with
  | none => Except.error "missing field rel"
  | some rel =>
    Except.ok
      { rel := rel
        link_type := st.link_type.getD none
        href := st.href.getD none
        titles := st.titles.getD Map.empty
        properties := st.properties.getD Map.empty }

/-- Derived `Deserialize` for `JsonResourceDescriptorLink`. -/
def decodeLink : Json → Except String JsonResourceDescriptorLink
  | Json.obj kvs =>
    match linkFold LinkState.init kvs with
    | Except.error e => Except.error e
    | Except.ok st => linkFinish st
  | _ => Except.error "invalid type: expected struct JsonResourceDescriptorLink"

/-- Deserialize a JSON value as a `Vec<JsonResourceDescriptorLink>`. -/
def decodeLinks : Json → Except String (List JsonResourceDescriptorLink)
  | Json.arr xs => go xs
  | _ => Except.error "invalid type: expected a sequence"
where
  go : List Json → Except String (List JsonResourceDescriptorLink)
    | [] => Except.ok []
    | x :: xs =>
      match decodeLink x with
      | Except.error e => Except.error e
      | Except.ok l =>
        match go xs with
        | Except.error e => Except.error e
        | Except.ok ls => Except.ok (l :: ls)

/-- Field slots of the derived `Deserialize` visitor for
`JsonResourceDescriptor`. -/
structure JrdState where
  subject : Option String
  aliases : Option (List String)
  properties : Option Map
  expires : Option (Option Time)
  links : Option (List JsonResourceDescriptorLink)

/-- Initial (all-unset) document visitor state. -/
def JrdState.init : JrdState := ⟨none, none, none, none, none⟩

/-- One field of the document object, as the derived visitor handles it. -/
def jrdStep (st : JrdState) (k : String) (v : Json) : Except String JrdState :=
  if k = "subject" then
    match st.subject with
    | some _ => Except.error "duplicate field subject"
    | none =>
      match decodeString v with
      | Except.error e => Except.error e
      | Except.ok s => Except.ok { st with subject := some s }
  else if k = "aliases" then
    match st.aliases with
    | some _ => Except.error "duplicate field aliases"
    | none =>
      match decodeStringList v with
      | Except.error e => Except.error e
      | Except.ok xs => Except.ok { st with aliases := some xs }
  else if k = "properties" then
    match st.properties with
    | some _ => Except.error "duplicate field properties"
    | none =>
      match decodeMap v with
      | Except.error e => Except.error e
      | Except.ok m => Except.ok { st with properties := some m }
  else if k = "expires" then
    match st.expires with
    | some _ => Except.error "duplicate field expires"
    | none =>
      match decodeOption decodeTime v with
      | Except.error e => Except.error e
      | Except.ok t => Except.ok { st with expires := some t }
  else if k = "links" then
    match st.links with
    | some _ => Except.error "duplicate field links"
    | none =>
      match decodeLinks v with
      | Except.error e => Except.error e
      | Except.ok ls => Except.ok { st with links := some ls }
  else Except.ok st

/-- Run the document visitor over all fields. -/
def jrdFold : JrdState → List (String × Json) → Except String JrdState
  | st, [] => Except.ok st
  | st, (k, v) :: rest =>
    match jrdStep st k v with
    | Except.error e => Except.error e
    | Except.ok st' => jrdFold st' rest

/-- Finish the document visitor. `subject` is required (plain `String`, no
`#[serde(default)]`); `aliases` and `properties` have `#[serde(default)]`;
`expires` is an `Option` so absence yields `None`; `links` has only
`skip_serializing_if` and no `default`, so a missing `links` member is an
error, exactly as serde's `missing_field` helper behaves for a `Vec`. -/
def jrdFinish (st : JrdState) : Except String JsonResourceDescriptor :=
  match st.subject with
  | none => Except.error "missing field subject"
  | some subject =>
    match st.links with
    | none => Except.error "missing field links"
    | some links =>
      Except.ok
        { subject := subject
          aliases := st.aliases.getD []
          properties := st.properties.getD Map.empty
          expires := st.expires.getD none
          links := links }

/-- Derived `Deserialize` for `JsonResourceDescriptor` from a JSON value. -/
def decodeJrd : Json → Except String JsonResourceDescriptor
  | Json.obj kvs =>
    match jrdFold JrdState.init kvs with
    | Except.error e => Except.error e
    | Except.ok st => jrdFinish st
  | _ => Except.error "invalid type: expected struct JsonResourceDescriptor"

/-- JSON whitespace skip (space, tab, line feed, carriage return). -/
def skipWs : List Char → List Char
  | c :: cs =>
    if c = ' ' || c = '\n' || c = '\t' || c = '\r' then skipWs cs else c :: cs
  | [] => []

/-- Hexadecimal digit value. -/
def hexVal (c : Char) : Option Nat :=
  if 48 ≤ c.toNat ∧ c.toNat ≤ 57 then some (c.toNat - 48)
  else if 97 ≤ c.toNat ∧ c.toNat ≤ 102 then some (c.toNat - 87)
  else if 65 ≤ c.toNat ∧ c.toNat ≤ 70 then some (c.toNat - 55)
  else none

/-- Four hexadecimal digits of a `\u` escape. -/
def hex4 (a b c d : Char) : Option Nat :=
  match hexVal a, hexVal b, hexVal c, hexVal d with
  | some va, some vb, some vc, some vd =>
    some (((va * 16 + vb) * 16 + vc) * 16 + vd)
  | _, _, _, _ => none

/-- Body of a JSON string literal after the opening quote, with serde_json's
escape handling, including surrogate pairs for `\u` escapes. -/
def pStringBody (acc : List Char) : List Char → Option (String × List Char)
  | [] => none
  | '"' :: cs => some (String.mk acc.reverse, cs)
  | '\\' :: e :: cs =>
    match e with
    | '"' => pStringBody ('"' :: acc) cs
    | '\\' => pStringBody ('\\' :: acc) cs
    | '/' => pStringBody ('/' :: acc) cs
    | 'b' => pStringBody ('\x08' :: acc) cs
    | 'f' => pStringBody ('\x0c' :: acc) cs
    | 'n' => pStringBody ('\n' :: acc) cs
    | 'r' => pStringBody ('\r' :: acc) cs
    | 't' => pStringBody ('\t' :: acc) cs
    | 'u' =>
      match cs with
      | a :: b :: c :: d :: cs1 =>
        (match hex4 a b c d with
         | none => none
         | some n =>
           if h : n < 0xd800 ∨ 0xdfff < n ∧ n < 0x110000 then
             pStringBody (Char.ofNatAux n (by unfold Nat.isValidChar; omega) :: acc) cs1
           else if h3 : 0xd800 ≤ n ∧ n ≤ 0xdbff then
             match cs1 with
             | '\\' :: 'u' :: a2 :: b2 :: c2 :: d2 :: cs2 =>
               (match hex4 a2 b2 c2 d2 with
                | none => none
                | some lo =>
                  if h2 : 0xdc00 ≤ lo ∧ lo ≤ 0xdfff then
                    let cp := 0x10000 + (n - 0xd800) * 0x400 + (lo - 0xdc00)
                    pStringBody
                      (Char.ofNatAux cp (by unfold Nat.isValidChar; omega) :: acc) cs2
                  else none)
             | _ => none
           else none)
      | _ => none
    | _ => none
  | c :: cs => if c.toNat < 32 then none else pStringBody (c :: acc) cs

/-- Integer literal (the only numeric shape these documents use). -/
def pNumber : List Char → Option (Json × List Char)
  | '-' :: cs =>
    match readNum 19 cs with
    | some (n, _, rest) => some (Json.num (-(n : Int)), rest)
    | none => none
  | cs =>
    match readNum 19 cs with
    | some (n, _, rest) => some (Json.num ((n : Int)), rest)
    | none => none

mutual

/-- Recursive-descent JSON value parser over characters, fuelled to bound the
nesting; `serde_json::from_str` accepts exactly these shapes for the
documents in scope. -/
def pJson : Nat → List Char → Option (Json × List Char)
  | 0, _ => none
  | fuel + 1, cs =>
    match skipWs cs with
    | '"' :: cs' => (pStringBody [] cs').map (fun p => (Json.str p.1, p.2))
    | 't' :: 'r' :: 'u' :: 'e' :: cs' => some (Json.bool true, cs')
    | 'f' :: 'a' :: 'l' :: 's' :: 'e' :: cs' => some (Json.bool false, cs')
    | 'n' :: 'u' :: 'l' :: 'l' :: cs' => some (Json.null, cs')
    | '[' :: cs' =>
      (match skipWs cs' with
       | ']' :: cs'' => some (Json.arr [], cs'')
       | cs'' =>
         match pJson fuel cs'' with
         | none => none
         | some (x, rest) =>
           match pArrRest fuel rest with
           | none => none
           | some (xs, rest') => some (Json.arr (x :: xs), rest'))
    | '\x7b' :: cs' =>
      (match skipWs cs' with
       | '\x7d' :: cs'' => some (Json.obj [], cs'')
       | '"' :: cs'' =>
         (match pStringBody [] cs'' with
          | none => none
          | some (k, rest) =>
            match expectChar ':' (skipWs rest) with
            | none => none
            | some rest' =>
              match pJson fuel rest' with
              | none => none
              | some (v, rest'') =>
                match pObjRest fuel rest'' with
                | none => none
                | some (kvs, rest''') => some (Json.obj ((k, v) :: kvs), rest'''))
       | _ => none)
    | cs' => pNumber cs'

/-- Further array elements: a comma then a value, or the closing bracket. -/
def pArrRest : Nat → List Char → Option (List Json × List Char)
  | 0, _ => none
  | fuel + 1, cs =>
    match skipWs cs with
    | ']' :: cs' => some ([], cs')
    | ',' :: cs' =>
      (match pJson fuel cs' with
       | none => none
       | some (x, rest) =>
         match pArrRest fuel rest with
         | none => none
         | some (xs, rest') => some (x :: xs, rest'))
    | _ => none

/-- Further object members: a comma then a `"key": value` pair, or the
closing brace. -/
def pObjRest : Nat → List Char → Option (List (String × Json) × List Char)
  | 0, _ => none
  | fuel + 1, cs =>
    match skipWs cs with
    | '\x7d' :: cs' => some ([], cs')
    | ',' :: cs' =>
      (match skipWs cs' with
       | '"' :: cs'' =>
         (match pStringBody [] cs'' with
          | none => none
          | some (k, rest) =>
            match expectChar ':' (skipWs rest) with
            | none => none
            | some rest' =>
              match pJson fuel rest' with
              | none => none
              | some (v, rest'') =>
                match pObjRest fuel rest'' with
                | none => none
                | some (kvs, rest''') => some ((k, v) :: kvs, rest'''))
       | _ => none)
    | _ => none

end

/-- Model of `serde_json`'s text-to-value parse: a single JSON value with
only whitespace around it. -/
def parseJsonText (s : String) : Except String Json :=
  match pJson (s.data.length + 1) s.data with
  | none => Except.error "invalid JSON"
  | some (j, rest) =>
    match skipWs rest with
    | [] => Except.ok j
    | _ => Except.error "trailing characters"

/-- Model of `serde_json::from_str::<JsonResourceDescriptor>`: the crate's
documented parsing surface (`FormatError` is the `Except.error` branch). -/
def jrdFromStr (s : String) : Except String JsonResourceDescriptor :=
  match parseJsonText s with
  | Except.error e => Except.error e
  | Except.ok j => decodeJrd j

/-- The document of spec section 6 (also the crate's module-doc example),
byte for byte. -/
def sec6Text : String :=
  "\x7b\n  \"subject\": \"acct:paulej@packetizer.com\",\n  \"properties\": \x7b\n    \"http://packetizer.com/ns/name\": \"Paul E. Jones\"\n  \x7d,\n  \"links\": [\n    \x7b\n      \"rel\": \"http://webfinger.net/rel/profile-page\",\n      \"href\": \"http://www.packetizer.com/people/paulej/\"\n    \x7d,\n    \x7b\n      \"rel\": \"http://packetizer.com/rel/blog\",\n      \"type\": \"text/html\",\n      \"href\": \"http://www.packetizer.com/people/paulej/blog/\",\n      \"titles\": \x7b\n        \"en-us\": \"Paul E. Jones\x27 Blog\"\n      \x7d\n    \x7d\n  ]\n\x7d"

/-- First link of the module-doc value. -/
def sec6Link1 : JsonResourceDescriptorLink :=
  { rel := "http://webfinger.net/rel/profile-page"
    href := some "http://www.packetizer.com/people/paulej/"
    link_type := none
    titles := Map.empty
    properties := Map.empty }

/-- Second link of the module-doc value. -/
def sec6Link2 : JsonResourceDescriptorLink :=
  { rel := "http://packetizer.com/rel/blog"
    href := some "http://www.packetizer.com/people/paulej/blog/"
    link_type := some "text/html"
    titles := ⟨[("en-us", "Paul E. Jones\x27 Blog")], by decide⟩
    properties := Map.empty }

/-- The in-memory value the crate's module doc builds for that document
(`jrd_struct`). -/
def sec6Jrd : JsonResourceDescriptor :=
  { subject := "acct:paulej@packetizer.com"
    aliases := []
    properties := ⟨[("http://packetizer.com/ns/name", "Paul E. Jones")], by decide⟩
    expires := none
    links := [sec6Link1, sec6Link2] }

/-- A descriptor with every optional part empty or absent. -/
def minimalJrd : JsonResourceDescriptor := ⟨"acct:a@b", [], Map.empty, none, []⟩

/-- C1 (code bug): serializing a descriptor whose `links` is empty omits the
`links` member, and parsing the produced text then fails, because the `links`
field has `skip_serializing_if` but no `#[serde(default)]`; the round trip
`Parse(Serialize(v)) == v` therefore fails already at this minimal value. -/
theorem c1_roundtrip_fails_on_empty_links :
    jrdToStringPretty minimalJrd = "\x7b\n  \"subject\": \"acct:a@b\"\n\x7d" ∧
    jrdFromStr (jrdToStringPretty minimalJrd) = Except.error "missing field links" := by
  exact ⟨rfl, rfl⟩

/-- C2 (code bug): parsing `{"subject":"acct:a@b"}` does not succeed with
defaults; the missing `links` member is a `FormatError` because `links` lacks
`#[serde(default)]`. The sibling fields do default: the same text with an
explicit empty `links` array parses to the all-default value. -/
theorem c2_missing_links_is_error :
    jrdFromStr "\x7b\"subject\":\"acct:a@b\"\x7d" = Except.error "missing field links" ∧
    jrdFromStr "\x7b\"subject\":\"acct:a@b\",\"links\":[]\x7d" = Except.ok minimalJrd := by
  exact ⟨rfl, rfl⟩

set_option maxRecDepth 4096 in
/-- C3: the spec section 6 document parses to exactly the module-doc value —
subject `acct:paulej@packetizer.com`, one property entry, two links, the
second link carrying the `en-us` title and media type `text/html` — and
serializing that value reproduces the section 6 text byte for byte. -/
theorem c3_section6_example :
    jrdFromStr sec6Text = Except.ok sec6Jrd ∧
    jrdToStringPretty sec6Jrd = sec6Text ∧
    sec6Jrd.subject = "acct:paulej@packetizer.com" ∧
    sec6Jrd.properties.entries.length = 1 ∧
    sec6Jrd.links.length = 2 ∧
    sec6Jrd.links.map (fun l => l.link_type) = [none, some "text/html"] ∧
    sec6Jrd.links.map (fun l => l.titles.entries) =
      [[], [("en-us", "Paul E. Jones\x27 Blog")]] := by
  exact ⟨rfl, rfl, rfl, rfl, rfl, rfl, rfl⟩


theorem encodeJrd_entries_shape (v : JsonResourceDescriptor) (p : String × Json)
    (hp : p ∈ (encodeJrd v).objEntries) :
    p = ("subject", Json.str v.subject) ∨
    (p = ("aliases", Json.arr (v.aliases.map Json.str)) ∧ v.aliases.isEmpty = false) ∨
    (p = ("properties", encodeMap v.properties) ∧ v.properties.isEmpty = false) ∨
    (∃ t, v.expires = some t ∧ p = ("expires", Json.str (encodeTime t))) ∨
    (p = ("links", Json.arr (v.links.map encodeLink)) ∧ v.links.isEmpty = false) := by
  simp only [encodeJrd, Json.objEntries, List.append_assoc, List.cons_append,
    List.nil_append, List.mem_cons, List.mem_append] at hp
  rcases hp with hp | hp
  · exact Or.inl hp
  rcases hp with hp | hp
  · refine Or.inr (Or.inl ?_)
    cases hal : v.aliases.isEmpty <;> rw [hal] at hp <;> simp at hp
    exact ⟨hp, rfl⟩
  rcases hp with hp | hp
  · refine Or.inr (Or.inr (Or.inl ?_))
    cases hpr : v.properties.isEmpty <;> rw [hpr] at hp <;> simp at hp
    exact ⟨hp, rfl⟩
  rcases hp with hp | hp
  · refine Or.inr (Or.inr (Or.inr (Or.inl ?_)))
    cases hex : v.expires with
    | none => rw [hex] at hp; simp at hp
    | some t => rw [hex] at hp; simp at hp; exact ⟨t, rfl, hp⟩
  · refine Or.inr (Or.inr (Or.inr (Or.inr ?_)))
    cases hli : v.links.isEmpty <;> rw [hli] at hp <;> simp at hp
    exact ⟨hp, rfl⟩

/-- C5: serialization omits empty collections and absent scalars: the emitted
keys are exactly `subject` plus the non-empty/present optional members, every
emitted value is non-null and a non-empty array/object when it is one, and
the all-empty descriptor serializes to an object holding only `subject`. -/
theorem c5_omission :
    (∀ v : JsonResourceDescriptor,
      (encodeJrd v).objKeys =
        "subject" :: ((if v.aliases.isEmpty then [] else ["aliases"]) ++
          (if v.properties.isEmpty then [] else ["properties"]) ++
          (match v.expires with
           | none => []
           | some _ => ["expires"]) ++
          (if v.links.isEmpty then [] else ["links"])) ∧
      (∀ p, p ∈ (encodeJrd v).objEntries →
        p.2 ≠ Json.null ∧ p.2 ≠ Json.arr [] ∧ p.2 ≠ Json.obj [])) ∧
    jrdToStringPretty minimalJrd = "\x7b\n  \"subject\": \"acct:a@b\"\n\x7d" := by
  refine ⟨fun v => ⟨?_, ?_⟩, rfl⟩
  · cases hal : v.aliases.isEmpty <;> cases hpr : v.properties.isEmpty <;>
      cases hli : v.links.isEmpty <;> cases hex : v.expires <;>
      simp [encodeJrd, Json.objKeys, hal, hpr, hli, hex]
  · intro p hp
    rcases encodeJrd_entries_shape v p hp with h | ⟨h, hne⟩ | ⟨h, hne⟩ | ⟨t, _, h⟩ | ⟨h, hne⟩ <;>
      subst h
    · simp
    · refine ⟨by simp, ?_, by simp⟩
      simp only [ne_eq, Json.arr.injEq, List.map_eq_nil_iff]
      intro hcon
      rw [hcon] at hne
      simp at hne
    · refine ⟨by simp [encodeMap], ?_, ?_⟩
      · simp [encodeMap]
      · simp only [encodeMap, ne_eq, Json.obj.injEq, List.map_eq_nil_iff]
        intro hcon
        unfold Map.isEmpty at hne
        rw [hcon] at hne
        simp at hne
    · simp
    · refine ⟨by simp, ?_, by simp⟩
      simp only [ne_eq, Json.arr.injEq, List.map_eq_nil_iff]
      intro hcon
      rw [hcon] at hne
      simp at hne

/-- Strictly-ascending check for a key list. -/
def sortedKeys : List String → Bool
  | a :: b :: rest => keyLt a b && sortedKeys (b :: rest)
  | _ => true

theorem sortedKeys_of_sortedEntries (l : List (String × String))
    (h : sortedEntries l = true) : sortedKeys (l.map Prod.fst) = true := by
  induction l with
  | nil => rfl
  | cons p rest ih =>
    cases rest with
    | nil => rfl
    | cons q rest' =>
      simp only [sortedEntries, Bool.and_eq_true] at h
      simp only [List.map_cons, sortedKeys, Bool.and_eq_true]
      exact ⟨h.1, by simpa using ih h.2⟩

/-- The ordered-map result the claim's concrete example should produce once
`links` is supplied. -/
def c6Jrd : JsonResourceDescriptor :=
  ⟨"s", [], ⟨[("a", "1"), ("b", "2")], by decide⟩, none, []⟩

/-- C6 (counterexample): the claim's concrete input
`{"subject":"s","properties":{"b":"2","a":"1"}}` does not re-serialize at all:
parsing it fails with a `FormatError` because the `links` member is missing
(no `#[serde(default)]` on `links`). -/
theorem c6_counterexample :
    jrdFromStr "\x7b\"subject\":\"s\",\"properties\":\x7b\"b\":\"2\",\"a\":\"1\"\x7d\x7d" =
      Except.error "missing field links" := by
  exact rfl

/-- C6 (amended): serialization emits the top-level members in the fixed
order `subject`, `aliases`, `properties`, `expires`, `links` (present ones
only) and every `properties`/`titles` object in ascending key order; the
claim's concrete example holds once the mandatory `links` member is added:
parsing `{"subject":"s","properties":{"b":"2","a":"1"},"links":[]}` and
re-serializing emits `"a": "1"` before `"b": "2"`. -/
theorem c6_field_order_and_key_sort :
    (∀ v : JsonResourceDescriptor,
      (encodeJrd v).objKeys =
        "subject" :: ((if v.aliases.isEmpty then [] else ["aliases"]) ++
          (if v.properties.isEmpty then [] else ["properties"]) ++
          (match v.expires with
           | none => []
           | some _ => ["expires"]) ++
          (if v.links.isEmpty then [] else ["links"])) ∧
      sortedKeys ((encodeMap v.properties).objKeys) = true ∧
      (∀ l, l ∈ v.links →
        sortedKeys ((encodeMap l.titles).objKeys) = true ∧
        sortedKeys ((encodeMap l.properties).objKeys) = true)) ∧
    jrdFromStr "\x7b\"subject\":\"s\",\"properties\":\x7b\"b\":\"2\",\"a\":\"1\"\x7d,\"links\":[]\x7d" =
      Except.ok c6Jrd ∧
    jrdToStringPretty c6Jrd =
      "\x7b\n  \"subject\": \"s\",\n  \"properties\": \x7b\n    \"a\": \"1\",\n    \"b\": \"2\"\n  \x7d\n\x7d" := by
  refine ⟨fun v => ⟨?_, ?_, ?_⟩, rfl, rfl⟩
  · cases hal : v.aliases.isEmpty <;> cases hpr : v.properties.isEmpty <;>
      cases hli : v.links.isEmpty <;> cases hex : v.expires <;>
      simp [encodeJrd, Json.objKeys, hal, hpr, hli, hex]
  · have : (encodeMap v.properties).objKeys = v.properties.entries.map Prod.fst := by
      simp [encodeMap, Json.objKeys]
    rw [this]
    exact sortedKeys_of_sortedEntries _ v.properties.sorted
  · intro l _
    constructor
    · have : (encodeMap l.titles).objKeys = l.titles.entries.map Prod.fst := by
        simp [encodeMap, Json.objKeys]
      rw [this]
      exact sortedKeys_of_sortedEntries _ l.titles.sorted
    · have : (encodeMap l.properties).objKeys = l.properties.entries.map Prod.fst := by
        simp [encodeMap, Json.objKeys]
      rw [this]
      exact sortedKeys_of_sortedEntries _ l.properties.sorted

theorem jrdStep_subject_preserved (st : JrdState) (k : String) (v : Json)
    (st' : JrdState) (hk : k ≠ "subject") (h : jrdStep st k v = Except.ok st') :
    st'.subject = st.subject := by
  unfold jrdStep at h
  rw [if_neg hk] at h
  by_cases h2 : k = "aliases"
  · rw [if_pos h2] at h
    cases hsl : st.aliases with
    | some _ => rw [hsl] at h; cases h
    | none =>
      rw [hsl] at h
      cases hd : decodeStringList v with
      | error e => rw [hd] at h; cases h
      | ok xs => rw [hd] at h; cases h; rfl
  rw [if_neg h2] at h
  by_cases h3 : k = "properties"
  · rw [if_pos h3] at h
    cases hsl : st.properties with
    | some _ => rw [hsl] at h; cases h
    | none =>
      rw [hsl] at h
      cases hd : decodeMap v with
      | error e => rw [hd] at h; cases h
      | ok m => rw [hd] at h; cases h; rfl
  rw [if_neg h3] at h
  by_cases h4 : k = "expires"
  · rw [if_pos h4] at h
    cases hsl : st.expires with
    | some _ => rw [hsl] at h; cases h
    | none =>
      rw [hsl] at h
      cases hd : decodeOption decodeTime v with
      | error e => rw [hd] at h; cases h
      | ok t => rw [hd] at h; cases h; rfl
  rw [if_neg h4] at h
  by_cases h5 : k = "links"
  · rw [if_pos h5] at h
    cases hsl : st.links with
    | some _ => rw [hsl] at h; cases h
    | none =>
      rw [hsl] at h
      cases hd : decodeLinks v with
      | error e => rw [hd] at h; cases h
      | ok ls => rw [hd] at h; cases h; rfl
  rw [if_neg h5] at h
  cases h
  rfl

theorem jrdFold_subject_none (kvs : List (String × Json)) :
    ∀ (st st' : JrdState), jrdFold st kvs = Except.ok st' →
      st.subject = none → (∀ j, ("subject", j) ∉ kvs) → st'.subject = none := by
  induction kvs with
  | nil =>
    intro st st' h hs _
    cases h
    exact hs
  | cons kv rest ih =>
    intro st st' h hs hmem
    unfold jrdFold at h
    cases hstep : jrdStep st kv.1 kv.2 with
    | error e => rw [hstep] at h; cases h
    | ok st1 =>
      rw [hstep] at h
      have hk : kv.1 ≠ "subject" := by
        intro hcon
        exact hmem kv.2 (by rw [← hcon]; exact List.mem_cons_self _ _)
      have h1 : st1.subject = none := by
        rw [jrdStep_subject_preserved st kv.1 kv.2 st1 hk hstep]
        exact hs
      exact ih st1 st' h h1 (fun j hj => hmem j (List.mem_cons_of_mem _ hj))

/-- C8 (counterexample): parsing the well-formed JSON object `{}` — whose
`subject` member is absent — is a `FormatError`, not a success with an empty
subject, because `subject` has no `#[serde(default)]`. -/
theorem c8_counterexample :
    jrdFromStr "\x7b\x7d" = Except.error "missing field subject" := by
  exact rfl

/-- C8 (amended): parsing any JSON object without a `subject` member fails
(with a `FormatError`); `subject` is effectively required on parse, and an
absent `subject` never yields a descriptor with an empty-string subject. -/
theorem c8_missing_subject_is_error (kvs : List (String × Json))
    (h : ∀ j, ("subject", j) ∉ kvs) :
    ∃ e, decodeJrd (Json.obj kvs) = Except.error e := by
  cases hf : jrdFold JrdState.init kvs with
  | error e =>
    refine ⟨e, ?_⟩
    simp only [decodeJrd, hf]
  | ok st =>
    have hs : st.subject = none := jrdFold_subject_none kvs JrdState.init st hf rfl h
    refine ⟨"missing field subject", ?_⟩
    simp only [decodeJrd, hf, jrdFinish, hs]

/-- Witness for the C8 amended theorem at the concrete input `{}`. -/
theorem c8_missing_subject_is_error_witness :
    ∃ e, decodeJrd (Json.obj []) = Except.error e :=
  c8_missing_subject_is_error [] (fun j h => by cases h)

theorem decodeString_ok (v : Json) (s : String) (h : decodeString v = Except.ok s) :
    v = Json.str s := by
  cases v <;> simp [decodeString] at h
  rw [h]

theorem jrdStep_links_ok (st : JrdState) (v : Json) (st' : JrdState)
    (h : jrdStep st "links" v = Except.ok st') :
    ∃ ls, decodeLinks v = Except.ok ls := by
  unfold jrdStep at h
  rw [if_neg (by decide), if_neg (by decide), if_neg (by decide),
    if_neg (by decide), if_pos rfl] at h
  cases hsl : st.links with
  | some _ => rw [hsl] at h; cases h
  | none =>
    rw [hsl] at h
    cases hd : decodeLinks v with
    | error e => rw [hd] at h; cases h
    | ok ls => exact ⟨ls, rfl⟩

theorem jrdFold_links_ok (kvs : List (String × Json)) :
    ∀ (st st' : JrdState), jrdFold st kvs = Except.ok st' →
      ∀ v, ("links", v) ∈ kvs → ∃ ls, decodeLinks v = Except.ok ls := by
  induction kvs with
  | nil =>
    intro st st' _ v hv
    cases hv
  | cons kv rest ih =>
    intro st st' h v hv
    unfold jrdFold at h
    cases hstep : jrdStep st kv.1 kv.2 with
    | error e => rw [hstep] at h; cases h
    | ok st1 =>
      rw [hstep] at h
      rcases List.mem_cons.mp hv with hv | hv
      · have hkv : kv = ("links", v) := by rw [hv]
        rw [hkv] at hstep
        exact jrdStep_links_ok st v st1 hstep
      · exact ih st1 st' h v hv

theorem decodeLinksGo_ok (ls : List Json) :
    ∀ out, decodeLinks.go ls = Except.ok out →
      ∀ l, l ∈ ls → ∃ lk, decodeLink l = Except.ok lk := by
  induction ls with
  | nil =>
    intro out _ l hl
    cases hl
  | cons x xs ih =>
    intro out h l hl
    unfold decodeLinks.go at h
    cases hd : decodeLink x with
    | error e => rw [hd] at h; cases h
    | ok lk =>
      rw [hd] at h
      rcases List.mem_cons.mp hl with hl | hl
      · exact ⟨lk, by rw [hl]; exact hd⟩
      · cases hrest : decodeLinks.go xs with
        | error e => rw [hrest] at h; cases h
        | ok out' => exact ih out' hrest l hl

theorem linkStep_rel (st : LinkState) (k : String) (v : Json) (st' : LinkState)
    (h : linkStep st k v = Except.ok st') :
    st'.rel = st.rel ∨ (k = "rel" ∧ ∃ s, v = Json.str s) := by
  unfold linkStep at h
  by_cases h1 : k = "rel"
  · rw [if_pos h1] at h
    cases hsl : st.rel with
    | some _ => rw [hsl] at h; cases h
    | none =>
      rw [hsl] at h
      cases hd : decodeString v with
      | error e => rw [hd] at h; cases h
      | ok s =>
        rw [hd] at h
        exact Or.inr ⟨h1, s, decodeString_ok v s hd⟩
  rw [if_neg h1] at h
  by_cases h2 : k = "type"
  · rw [if_pos h2] at h
    cases hsl : st.link_type with
    | some _ => rw [hsl] at h; cases h
    | none =>
      rw [hsl] at h
      cases hd : decodeOption decodeString v with
      | error e => rw [hd] at h; cases h
      | ok s => rw [hd] at h; cases h; exact Or.inl rfl
  rw [if_neg h2] at h
  by_cases h3 : k = "href"
  · rw [if_pos h3] at h
    cases hsl : st.href with
    | some _ => rw [hsl] at h; cases h
    | none =>
      rw [hsl] at h
      cases hd : decodeOption decodeString v with
      | error e => rw [hd] at h; cases h
      | ok s => rw [hd] at h; cases h; exact Or.inl rfl
  rw [if_neg h3] at h
  by_cases h4 : k = "titles"
  · rw [if_pos h4] at h
    cases hsl : st.titles with
    | some _ => rw [hsl] at h; cases h
    | none =>
      rw [hsl] at h
      cases hd : decodeMap v with
      | error e => rw [hd] at h; cases h
      | ok m => rw [hd] at h; cases h; exact Or.inl rfl
  rw [if_neg h4] at h
  by_cases h5 : k = "properties"
  · rw [if_pos h5] at h
    cases hsl : st.properties with
    | some _ => rw [hsl] at h; cases h
    | none =>
      rw [hsl] at h
      cases hd : decodeMap v with
      | error e => rw [hd] at h; cases h
      | ok m => rw [hd] at h; cases h; exact Or.inl rfl
  rw [if_neg h5] at h
  cases h
  exact Or.inl rfl

theorem linkFold_rel_some (lkvs : List (String × Json)) :
    ∀ (st st' : LinkState), linkFold st lkvs = Except.ok st' →
      st'.rel.isSome = true →
      st.rel.isSome = true ∨ ∃ s, ("rel", Json.str s) ∈ lkvs := by
  induction lkvs with
  | nil =>
    intro st st' h hs
    cases h
    exact Or.inl hs
  | cons kv rest ih =>
    intro st st' h hs
    unfold linkFold at h
    cases hstep : linkStep st kv.1 kv.2 with
    | error e => rw [hstep] at h; cases h
    | ok st1 =>
      rw [hstep] at h
      rcases ih st1 st' h hs with h1 | ⟨s, hmem⟩
      · rcases linkStep_rel st kv.1 kv.2 st1 hstep with heq | ⟨hk, s, hv⟩
        · rw [heq] at h1
          exact Or.inl h1
        · refine Or.inr ⟨s, ?_⟩
          have : kv = ("rel", Json.str s) := by
            cases kv
            simp only at hk hv
            rw [hk, hv]
          rw [← this]
          exact List.mem_cons_self _ _
      · exact Or.inr ⟨s, List.mem_cons_of_mem _ hmem⟩

theorem decodeLink_ok_has_rel (lkvs : List (String × Json))
    (lk : JsonResourceDescriptorLink)
    (h : decodeLink (Json.obj lkvs) = Except.ok lk) :
    ∃ s, ("rel", Json.str s) ∈ lkvs := by
  have h' : (match linkFold LinkState.init lkvs with
      | Except.error e => Except.error e
      | Except.ok st => linkFinish st) = Except.ok lk := h
  cases hf : linkFold LinkState.init lkvs with
  | error e => rw [hf] at h'; cases h'
  | ok st =>
    rw [hf] at h'
    have h2 : linkFinish st = Except.ok lk := h'
    cases hrel : st.rel with
    | none =>
      unfold linkFinish at h2
      rw [hrel] at h2
      cases h2
    | some r =>
      have hsome : st.rel.isSome = true := by rw [hrel]; rfl
      rcases linkFold_rel_some lkvs LinkState.init st hf hsome with hcon | hex
      · cases hcon
      · exact hex

/-- C7: a links entry without a string-valued `rel` member makes the whole
parse fail with a `FormatError`: any object whose `links` array contains a
link object carrying no `"rel": <string>` member never decodes successfully,
and the concrete text `{"links":[{"href":"x"}]}` fails with the missing-`rel`
error. -/
theorem c7_missing_rel_is_error :
    (∀ (kvs : List (String × Json)) (ls : List Json) (lkvs : List (String × Json)),
      ("links", Json.arr ls) ∈ kvs → Json.obj lkvs ∈ ls →
      (∀ s, ("rel", Json.str s) ∉ lkvs) →
      ∃ e, decodeJrd (Json.obj kvs) = Except.error e) ∧
    jrdFromStr "\x7b\"links\":[\x7b\"href\":\"x\"\x7d]\x7d" =
      Except.error "missing field rel" := by
  refine ⟨?_, rfl⟩
  intro kvs ls lkvs hlinks hobj hnorel
  cases hf : jrdFold JrdState.init kvs with
  | error e =>
    refine ⟨e, ?_⟩
    simp only [decodeJrd, hf]
  | ok st =>
    obtain ⟨out, hout⟩ := jrdFold_links_ok kvs JrdState.init st hf _ hlinks
    have hgo : decodeLinks.go ls = Except.ok out := hout
    obtain ⟨lk, hlk⟩ := decodeLinksGo_ok ls out hgo _ hobj
    obtain ⟨s, hs⟩ := decodeLink_ok_has_rel lkvs lk hlk
    exact absurd hs (hnorel s)

/-- Witness for the C7 theorem at the concrete `{"links":[{"href":"x"}]}`
value. -/
theorem c7_missing_rel_is_error_witness :
    ∃ e, decodeJrd (Json.obj [("links", Json.arr [Json.obj [("href", Json.str "x")]])]) =
      Except.error e :=
  c7_missing_rel_is_error.1 [("links", Json.arr [Json.obj [("href", Json.str "x")]])]
    [Json.obj [("href", Json.str "x")]] [("href", Json.str "x")]
    (List.mem_cons_self _ _) (List.mem_cons_self _ _)
    (fun s hs => by simp at hs)

theorem jrdStep_unknown (st : JrdState) (k : String) (v : Json)
    (h : k ∉ (["subject", "aliases", "properties", "expires", "links"] : List String)) :
    jrdStep st k v = Except.ok st := by
  simp only [List.mem_cons, List.not_mem_nil, or_false, not_or] at h
  obtain ⟨h1, h2, h3, h4, h5⟩ := h
  unfold jrdStep
  rw [if_neg h1, if_neg h2, if_neg h3, if_neg h4, if_neg h5]

theorem jrdFold_skip_unknown (k : String) (v : Json)
    (hk : k ∉ (["subject", "aliases", "properties", "expires", "links"] : List String)) :
    ∀ (pre post : List (String × Json)) (st : JrdState),
      jrdFold st (pre ++ (k, v) :: post) = jrdFold st (pre ++ post) := by
  intro pre
  induction pre with
  | nil =>
    intro post st
    simp only [List.nil_append, jrdFold, jrdStep_unknown st k v hk]
  | cons p pre' ih =>
    intro post st
    obtain ⟨k', v'⟩ := p
    simp only [List.cons_append, jrdFold]
    cases hstep : jrdStep st k' v' with
    | error e => rfl
    | ok st1 => exact ih post st1

theorem linkStep_unknown (st : LinkState) (k : String) (v : Json)
    (h : k ∉ (["rel", "type", "href", "titles", "properties"] : List String)) :
    linkStep st k v = Except.ok st := by
  simp only [List.mem_cons, List.not_mem_nil, or_false, not_or] at h
  obtain ⟨h1, h2, h3, h4, h5⟩ := h
  unfold linkStep
  rw [if_neg h1, if_neg h2, if_neg h3, if_neg h4, if_neg h5]

theorem linkFold_skip_unknown (k : String) (v : Json)
    (hk : k ∉ (["rel", "type", "href", "titles", "properties"] : List String)) :
    ∀ (pre post : List (String × Json)) (st : LinkState),
      linkFold st (pre ++ (k, v) :: post) = linkFold st (pre ++ post) := by
  intro pre
  induction pre with
  | nil =>
    intro post st
    simp only [List.nil_append, linkFold, linkStep_unknown st k v hk]
  | cons p pre' ih =>
    intro post st
    obtain ⟨k', v'⟩ := p
    simp only [List.cons_append, linkFold]
    cases hstep : linkStep st k' v' with
    | error e => rfl
    | ok st1 => exact ih post st1

/-- C10: unknown members are silently ignored: dropping any member with an
unrecognized name from a document object or from a link object leaves the
parse result unchanged (in particular it is never a `FormatError` by
itself). -/
theorem c10_unknown_fields_ignored :
    (∀ (pre post : List (String × Json)) (k : String) (v : Json),
      k ∉ (["subject", "aliases", "properties", "expires", "links"] : List String) →
      decodeJrd (Json.obj (pre ++ (k, v) :: post)) = decodeJrd (Json.obj (pre ++ post))) ∧
    (∀ (pre post : List (String × Json)) (k : String) (v : Json),
      k ∉ (["rel", "type", "href", "titles", "properties"] : List String) →
      decodeLink (Json.obj (pre ++ (k, v) :: post)) = decodeLink (Json.obj (pre ++ post))) := by
  constructor
  · intro pre post k v hk
    simp only [decodeJrd]
    rw [jrdFold_skip_unknown k v hk pre post JrdState.init]
  · intro pre post k v hk
    simp only [decodeLink]
    rw [linkFold_skip_unknown k v hk pre post LinkState.init]

/-- Witness for the C10 theorem: an extra `"extra": null` member changes
neither a document parse nor a link parse. -/
theorem c10_unknown_fields_ignored_witness :
    decodeJrd (Json.obj ([("subject", Json.str "s")] ++ ("extra", Json.null) ::
        [("links", Json.arr [])])) =
      decodeJrd (Json.obj ([("subject", Json.str "s")] ++ [("links", Json.arr [])])) ∧
    decodeLink (Json.obj ([("rel", Json.str "r")] ++ ("extra", Json.null) :: [])) =
      decodeLink (Json.obj ([("rel", Json.str "r")] ++ [])) :=
  ⟨c10_unknown_fields_ignored.1 [("subject", Json.str "s")] [("links", Json.arr [])]
      "extra" Json.null (by decide),
    c10_unknown_fields_ignored.2 [("rel", Json.str "r")] [] "extra" Json.null (by decide)⟩

theorem isDigitChar_digitChar (d : Nat) (h : d < 10) :
    isDigitChar (digitChar d) = true := by
  interval_cases d <;> decide

theorem digitVal_digitChar (d : Nat) (h : d < 10) : digitVal (digitChar d) = d := by
  interval_cases d <;> decide

theorem readNumAux_stop (m acc cnt : Nat) (c : Char) (cs : List Char)
    (h : isDigitChar c = false) :
    readNumAux m acc cnt (c :: cs) = (acc, cnt, c :: cs) := by
  cases m with
  | zero => rfl
  | succ m' => simp [readNumAux, h]

theorem readNum_pad2 (n : Nat) (hn : n < 100) (c : Char) (_hc : isDigitChar c = false)
    (rest : List Char) :
    readNum 2 (pad2Chars n ++ c :: rest) = some (n, 2, c :: rest) := by
  have h1 : n / 10 < 10 := by omega
  have h2 : n % 10 < 10 := by omega
  have hv : n / 10 * 10 + n % 10 = n := by omega
  simp only [pad2Chars, List.cons_append, List.nil_append, readNum,
    isDigitChar_digitChar _ h1, if_true, readNumAux, isDigitChar_digitChar _ h2,
    digitVal_digitChar _ h1, digitVal_digitChar _ h2, readNumAux_stop _ _ _ _ _ _hc, hv]

theorem readNum_pad4 (n : Nat) (hn : n < 10000) (c : Char) (_hc : isDigitChar c = false)
    (rest : List Char) :
    readNum 4 (pad4Chars n ++ c :: rest) = some (n, 4, c :: rest) := by
  have h1 : n / 1000 < 10 := by omega
  have h2 : n / 100 % 10 < 10 := by omega
  have h3 : n / 10 % 10 < 10 := by omega
  have h4 : n % 10 < 10 := by omega
  have hv : ((n / 1000 * 10 + n / 100 % 10) * 10 + n / 10 % 10) * 10 + n % 10 = n := by
    omega
  simp only [pad4Chars, List.cons_append, List.nil_append, readNum,
    isDigitChar_digitChar _ h1, if_true, readNumAux, isDigitChar_digitChar _ h2,
    isDigitChar_digitChar _ h3, isDigitChar_digitChar _ h4,
    digitVal_digitChar _ h1, digitVal_digitChar _ h2, digitVal_digitChar _ h3,
    digitVal_digitChar _ h4, readNumAux_stop _ _ _ _ _ _hc, hv]


/-- Exhaustive check of the ordinal/date inversion over all valid month/day
pairs of both year shapes. -/
def dateOrdCheckAll : Bool :=
  [false, true].all fun leap =>
    (List.range 13).all fun m =>
      (List.range 32).all fun d =>
        !(decide (1 ≤ m) && decide (m ≤ 12) && decide (1 ≤ d) &&
            decide (d ≤ monthDays leap m)) ||
          decide (dateOfOrdinal leap (ordinalOfDate leap m d) = (m, d))

theorem dateOfOrdinal_ordinalOfDate (leap : Bool) (m d : Nat) (hm1 : 1 ≤ m)
    (hm2 : m ≤ 12) (hd1 : 1 ≤ d) (hd2 : d ≤ monthDays leap m) :
    dateOfOrdinal leap (ordinalOfDate leap m d) = (m, d) := by
  have hd31 : d ≤ 31 := by
    cases leap <;> interval_cases m <;> simp [monthDays] at hd2 <;> omega
  have hall : dateOrdCheckAll = true := by decide
  unfold dateOrdCheckAll at hall
  have h1 := List.all_eq_true.mp hall leap (by cases leap <;> simp)
  have h2 := List.all_eq_true.mp h1 m (List.mem_range.mpr (by omega))
  have h3 := List.all_eq_true.mp h2 d (List.mem_range.mpr (by omega))
  rw [Bool.or_eq_true] at h3
  rcases h3 with h3 | h3
  · rw [Bool.not_eq_eq_eq_not, Bool.not_true] at h3
    simp only [Bool.and_eq_false_iff, decide_eq_false_iff_not, not_le] at h3
    omega
  · exact of_decide_eq_true h3

theorem ordinalOfDate_pos (leap : Bool) (m d : Nat) (hd1 : 1 ≤ d) :
    1 ≤ ordinalOfDate leap m d := by
  unfold ordinalOfDate
  omega

theorem ordinalOfDate_le_yearLength (leap : Bool) (m d : Nat) (hm1 : 1 ≤ m)
    (hm2 : m ≤ 12) (hd2 : d ≤ monthDays leap m) :
    ordinalOfDate leap m d ≤ if leap then 366 else 365 := by
  cases leap <;> interval_cases m <;>
    simp [monthDays] at hd2 <;> simp [ordinalOfDate, monthStart] <;> omega

theorem civilAddDays_zero (y : Int) (m d : Nat) (hm1 : 1 ≤ m) (hm2 : m ≤ 12)
    (hd1 : 1 ≤ d) (hd2 : d ≤ monthDays (isLeap y) m) :
    civilAddDays y m d 0 = (y, m, d) := by
  unfold civilAddDays
  have hpos : 1 ≤ ordinalOfDate (isLeap y) m d := ordinalOfDate_pos _ _ _ hd1
  have hle : ordinalOfDate (isLeap y) m d ≤ yearLength y := by
    have := ordinalOfDate_le_yearLength (isLeap y) m d hm1 hm2 hd2
    unfold yearLength
    exact this
  rw [if_pos (by constructor <;> omega)]
  have harg : ((ordinalOfDate (isLeap y) m d : Int) + 0).toNat =
      ordinalOfDate (isLeap y) m d := by omega
  rw [harg, dateOfOrdinal_ordinalOfDate (isLeap y) m d hm1 hm2 hd1 hd2]

theorem applyOffset_zero (t : Time) (hv : t.Valid) : applyOffset t 0 = t := by
  obtain ⟨y, mo, d, h, mi, s, na⟩ := t
  obtain ⟨hm1, hm2, hd1, hd2, hh, hmi, hs, _⟩ := hv
  dsimp only at hm1 hm2 hd1 hd2 hh hmi hs
  unfold applyOffset
  dsimp only
  have htot : (h : Int) * 3600 + (mi : Int) * 60 + (s : Int) - 0 =
      ((h * 3600 + mi * 60 + s : Nat) : Int) := by push_cast; ring
  rw [htot]
  have hradix : ((h * 3600 + mi * 60 + s : Nat) : Int) / 86400 = 0 := by omega
  have hmod : ¬ ((h * 3600 + mi * 60 + s : Nat) : Int) % 86400 < 0 := by omega
  rw [hradix, if_neg hmod]
  have hz : (0 : Int) - 0 = 0 := by norm_num
  rw [hz]
  have hrem : (((h * 3600 + mi * 60 + s : Nat) : Int) - 86400 * 0).toNat =
      h * 3600 + mi * 60 + s := by omega
  rw [hrem]
  rw [civilAddDays_zero y mo d hm1 hm2 hd1 hd2]
  have e1 : (h * 3600 + mi * 60 + s) / 3600 = h := by omega
  have e2 : (h * 3600 + mi * 60 + s) % 3600 / 60 = mi := by omega
  have e3 : (h * 3600 + mi * 60 + s) % 60 = s := by omega
  rw [e1, e2, e3]

theorem expectChar_self (c : Char) (rest : List Char) :
    expectChar c (c :: rest) = some rest := by
  simp [expectChar]

theorem readFrac_Z (l : List Char) : readFrac ('Z' :: l) = some (0, 'Z' :: l) := rfl

theorem readOffset_Z (l : List Char) : readOffset ('Z' :: l) = some (0, l) := rfl

theorem parseRfc3339_encodeTimeChars (t : Time) (hv : t.Valid) (h0 : t.nano = 0)
    (hy0 : 0 ≤ t.year) (hy9 : t.year ≤ 9999) :
    parseRfc3339Chars (encodeTimeChars t) = some (t, 0) := by
  obtain ⟨y, mo, d, h, mi, s, na⟩ := t
  obtain ⟨hm1, hm2, hd1, hd2, hh, hmi, hs, _⟩ := hv
  dsimp only at hm1 hm2 hd1 hd2 hh hmi hs h0 hy0 hy9
  subst h0
  have hy4 : y.toNat < 10000 := by omega
  have hmo : mo < 100 := by omega
  have hd31 : d ≤ 31 := by
    cases hL : isLeap y <;> rw [hL] at hd2 <;> interval_cases mo <;>
      simp [monthDays] at hd2 <;> omega
  have hdlt : d < 100 := by omega
  have hhlt : h < 100 := by omega
  have hmilt : mi < 100 := by omega
  have hslt : s < 100 := by omega
  unfold encodeTimeChars yearChars fracChars
  dsimp only
  rw [if_pos ⟨hy0, hy9⟩, if_pos rfl]
  simp only [List.append_assoc, List.cons_append, List.nil_append]
  simp only [parseRfc3339Chars,
    readNum_pad4 y.toNat hy4 '-' (by decide),
    readNum_pad2 mo hmo '-' (by decide),
    readNum_pad2 d hdlt 'T' (by decide),
    readNum_pad2 h hhlt ':' (by decide),
    readNum_pad2 mi hmilt ':' (by decide),
    readNum_pad2 s hslt 'Z' (by decide),
    expectChar_self, readFrac_Z, readOffset_Z]
  rw [Int.toNat_of_nonneg hy0]
  rw [if_pos ⟨⟨hm1, hm2, hd1, hd2, hh, hmi, hs, by omega⟩, by decide⟩]

theorem decodeTimeStr_encodeTime (t : Time) (hv : t.Valid) (h0 : t.nano = 0)
    (hy0 : 0 ≤ t.year) (hy9 : t.year ≤ 9999) :
    decodeTimeStr (encodeTime t) = Except.ok t := by
  unfold decodeTimeStr encodeTime
  have hdata : (String.mk (encodeTimeChars t)).data = encodeTimeChars t := rfl
  rw [hdata, parseRfc3339_encodeTimeChars t hv h0 hy0 hy9]
  dsimp only
  rw [applyOffset_zero t hv]


theorem getLast?_append_right (l1 l2 : List Char) (c : Char)
    (h : l2.getLast? = some c) : (l1 ++ l2).getLast? = some c := by
  rw [List.getLast?_append, h]
  rfl

theorem getLast?_cons_right (x c : Char) (l : List Char)
    (h : l.getLast? = some c) : (x :: l).getLast? = some c := by
  cases l with
  | nil => cases h
  | cons a l' =>
    rw [List.getLast?_cons_cons]
    exact h

theorem encodeTimeChars_getLast (t : Time) :
    (encodeTimeChars t).getLast? = some 'Z' := by
  unfold encodeTimeChars
  simp only [List.append_assoc, List.cons_append]
  apply getLast?_append_right
  apply getLast?_cons_right
  apply getLast?_append_right
  apply getLast?_cons_right
  apply getLast?_append_right
  apply getLast?_cons_right
  apply getLast?_append_right
  apply getLast?_cons_right
  apply getLast?_append_right
  apply getLast?_cons_right
  apply getLast?_append_right
  apply getLast?_append_right
  rfl

theorem digitChar_ne_dot (d : Nat) : digitChar d ≠ '.' := by
  rcases d with _ | _ | _ | _ | _ | _ | _ | _ | _ | _ | n <;>
    first
    | decide
    | (intro h; simp [digitChar] at h)

theorem dot_ne_digitChar (d : Nat) : '.' ≠ digitChar d :=
  fun h => digitChar_ne_dot d h.symm

theorem dot_not_mem_pad4 (n : Nat) : '.' ∉ pad4Chars n := by
  simp [pad4Chars, dot_ne_digitChar]

theorem dot_not_mem_pad2 (n : Nat) : '.' ∉ pad2Chars n := by
  simp [pad2Chars, dot_ne_digitChar]

theorem dot_not_mem_encodeTimeChars (t : Time) (h0 : t.nano = 0)
    (hy0 : 0 ≤ t.year) (hy9 : t.year ≤ 9999) : '.' ∉ encodeTimeChars t := by
  unfold encodeTimeChars yearChars fracChars
  rw [if_pos ⟨hy0, hy9⟩, if_pos h0]
  intro hmem
  simp only [List.append_assoc, List.cons_append, List.nil_append, List.mem_append,
    List.mem_cons, List.mem_singleton, List.not_mem_nil] at hmem
  rcases hmem with hmem | hmem | hmem | hmem | hmem | hmem | hmem | hmem | hmem | hmem |
      hmem | hmem <;>
    first
    | exact dot_not_mem_pad4 _ hmem
    | exact dot_not_mem_pad2 _ hmem
    | simp at hmem

/-- A descriptor whose expiry instant carries half a second of sub-second
precision. -/
def fracJrd : JsonResourceDescriptor :=
  ⟨"s", [], Map.empty, some ⟨2012, 11, 16, 19, 41, 35, 500000000⟩, []⟩

/-- A descriptor with a whole-second expiry instant. -/
def expiresJrd : JsonResourceDescriptor :=
  ⟨"s", [], Map.empty, some ⟨2012, 11, 16, 19, 41, 35, 0⟩, []⟩

/-- C4 (counterexample): serialization does produce fractional seconds when
the in-memory instant has sub-second nanoseconds — `Time` is
`chrono::DateTime<Utc>`, which carries nanoseconds, and chrono's formatter
emits them (`.500` here), so "never produces fractional seconds" fails for
this descriptor. -/
theorem c4_counterexample :
    encodeTime ⟨2012, 11, 16, 19, 41, 35, 500000000⟩ = "2012-11-16T19:41:35.500Z" ∧
    jrdToStringPretty fracJrd =
      "\x7b\n  \"subject\": \"s\",\n  \"expires\": \"2012-11-16T19:41:35.500Z\"\n\x7d" ∧
    '.' ∈ (encodeTime ⟨2012, 11, 16, 19, 41, 35, 500000000⟩).data := by
  refine ⟨rfl, rfl, ?_⟩
  decide

/-- C4 (amended): for every descriptor whose `expires` instant is a valid
civil time with zero sub-second nanoseconds and a year in 0..=9999,
serialization emits `expires` as the RFC 3339 UTC instant at second
precision with a literal `Z` suffix and no fractional seconds, and decoding
that emitted text restores the same instant exactly. (The nanosecond and
year restrictions are forced by the counterexample: sub-second instants emit
fractions, and years outside 0..=9999 format with a sign prefix that the
RFC 3339 parser rejects.) -/
theorem c4_expires_strict_utc (v : JsonResourceDescriptor) (t : Time)
    (hexp : v.expires = some t) (hv : t.Valid) (h0 : t.nano = 0)
    (hy0 : 0 ≤ t.year) (hy9 : t.year ≤ 9999) :
    ("expires", Json.str (encodeTime t)) ∈ (encodeJrd v).objEntries ∧
    (encodeTime t).data.getLast? = some 'Z' ∧
    '.' ∉ (encodeTime t).data ∧
    decodeTimeStr (encodeTime t) = Except.ok t := by
  refine ⟨?_, ?_, ?_, ?_⟩
  · simp [encodeJrd, Json.objEntries, hexp]
  · exact encodeTimeChars_getLast t
  · exact dot_not_mem_encodeTimeChars t h0 hy0 hy9
  · exact decodeTimeStr_encodeTime t hv h0 hy0 hy9

/-- Witness for the C4 amended theorem at a concrete whole-second instant. -/
theorem c4_expires_strict_utc_witness :
    ("expires", Json.str (encodeTime ⟨2012, 11, 16, 19, 41, 35, 0⟩)) ∈
      (encodeJrd expiresJrd).objEntries ∧
    (encodeTime ⟨2012, 11, 16, 19, 41, 35, 0⟩).data.getLast? = some 'Z' ∧
    '.' ∉ (encodeTime ⟨2012, 11, 16, 19, 41, 35, 0⟩).data ∧
    decodeTimeStr (encodeTime ⟨2012, 11, 16, 19, 41, 35, 0⟩) =
      Except.ok ⟨2012, 11, 16, 19, 41, 35, 0⟩ :=
  c4_expires_strict_utc expiresJrd ⟨2012, 11, 16, 19, 41, 35, 0⟩ rfl (by decide) rfl
    (by decide) (by decide)

/-- C9: decoding `expires` is lenient — RFC 3339 instants with fractional
seconds or non-`Z` numeric offsets are accepted and converted to the UTC
instant — while encoding only ever emits the strict `Z`-suffixed form, with
no fraction for whole-second instants. -/
theorem c9_lenient_parse_strict_emit :
    decodeTimeStr "2012-11-16T19:41:35.5Z" =
      Except.ok ⟨2012, 11, 16, 19, 41, 35, 500000000⟩ ∧
    decodeTimeStr "2012-11-17T00:41:35+05:00" =
      Except.ok ⟨2012, 11, 16, 19, 41, 35, 0⟩ ∧
    decodeTimeStr "2012-01-01T00:30:00+01:00" =
      Except.ok ⟨2011, 12, 31, 23, 30, 0, 0⟩ ∧
    decodeTimeStr "2011-12-31T19:30:00-05:00" =
      Except.ok ⟨2012, 1, 1, 0, 30, 0, 0⟩ ∧
    (∀ t : Time, (encodeTimeChars t).getLast? = some 'Z' ∧
      (t.nano = 0 → 0 ≤ t.year → t.year ≤ 9999 → '.' ∉ encodeTimeChars t)) := by
  refine ⟨rfl, rfl, rfl, rfl, fun t => ⟨encodeTimeChars_getLast t, ?_⟩⟩
  intro h0 hy0 hy9
  exact dot_not_mem_encodeTimeChars t h0 hy0 hy9

/-- Witness for the C9 theorem's universally quantified part at a concrete
instant. -/
theorem c9_lenient_parse_strict_emit_witness :
    (encodeTimeChars ⟨2012, 11, 16, 19, 41, 35, 0⟩).getLast? = some 'Z' ∧
    '.' ∉ encodeTimeChars ⟨2012, 11, 16, 19, 41, 35, 0⟩ :=
  ⟨(c9_lenient_parse_strict_emit.2.2.2.2 ⟨2012, 11, 16, 19, 41, 35, 0⟩).1,
    (c9_lenient_parse_strict_emit.2.2.2.2 ⟨2012, 11, 16, 19, 41, 35, 0⟩).2 rfl
      (by decide) (by decide)⟩

/-- Witness for the C5 theorem's per-entry part at the minimal descriptor's
`subject` entry. -/
theorem c5_omission_witness :
    ("subject", Json.str "acct:a@b").2 ≠ Json.null ∧
    ("subject", Json.str "acct:a@b").2 ≠ Json.arr [] ∧
    ("subject", Json.str "acct:a@b").2 ≠ Json.obj [] :=
  (c5_omission.1 minimalJrd).2 ("subject", Json.str "acct:a@b")
    (List.mem_cons_self _ _)

/-- Witness for the C6 theorem's per-link part at the second module-doc
link. -/
theorem c6_field_order_and_key_sort_witness :
    sortedKeys ((encodeMap sec6Link2.titles).objKeys) = true ∧
    sortedKeys ((encodeMap sec6Link2.properties).objKeys) = true :=
  (c6_field_order_and_key_sort.1 sec6Jrd).2.2 sec6Link2
    (List.mem_cons_of_mem _ (List.mem_cons_self _ _))
